import Mathlib

/-!
Shallow embedding of the playlist-automation core of the spotiframes
repository (modules playlist_update.py, playlist_consolidation.py,
_sync_impl/descriptions.py, description_helpers.py) and proofs settling
the claims about it.

Conventions used throughout:
* Python strings are `String` where only identity and ordering matter
  (playlist names, playlist ids, track URIs), and `List Nat` (a list of
  Unicode code points, `PyStr`) where code-point-level behaviour matters
  (description sanitisation).
* Remote playlist membership, as returned by `get_playlist_tracks`, is a
  set of URIs; we carry it as a `List Uri` and test membership on it.
* Python's stable sort (`list.sort` / `sorted`) is modelled by
  `List.insertionSort`, which is stable in the same sense.
-/

/-- One track URI / playlist name / playlist id. -/
abbrev Uri := String

/-- Helper for `chunked`, structurally recursive on a fuel argument that is
always instantiated with the length of the list. -/
def chunkedGo (n : Nat) : Nat → List α → List (List α)
  | _, [] => []
  | 0, l => [l]
  | fuel + 1, l => l.take n :: chunkedGo n fuel (l.drop n)

/-- Embedding of `chunked` from `src/scripts/common/api_helpers`
(re-exported by `_sync_impl.api` as `_chunked`): consecutive chunks of
size `n` of a list.  The automation code always calls it with `n = 50`. -/
def chunked (l : List α) (n : Nat) : List (List α) :=
  chunkedGo n l.length l

theorem chunkedGo_join (n : Nat) (hn : 1 ≤ n) :
    ∀ (fuel : Nat) (l : List α), l.length ≤ fuel → (chunkedGo n fuel l).flatten = l := by
  intro fuel
  induction fuel with
  | zero =>
    intro l hl
    cases l with
    | nil => simp [chunkedGo]
    | cons a l => simp at hl
  | succ fuel ih =>
    intro l hl
    cases l with
    | nil => simp [chunkedGo]
    | cons a l =>
      simp only [chunkedGo, List.flatten_cons]
      rw [ih]
      · exact List.take_append_drop n (a :: l)
      · simp only [List.length_drop, List.length_cons]
        simp only [List.length_cons] at hl
        omega

/-- Joining the chunks gives back the original list. -/
theorem chunked_join (l : List α) (n : Nat) (hn : 1 ≤ n) :
    (chunked l n).flatten = l :=
  chunkedGo_join n hn l.length l (Nat.le_refl _)

/-- The mutation operations the automation issues against the remote API.
`remove` exists in the op algebra (the Spotify API offers it) but, as the
theorems below show, the reconciliation code never emits it. -/
inductive Op
  | create (name : String)
  | add (pid : String) (uris : List Uri)
  | remove (pid : String) (uris : List Uri)
  | updDescription (pid : String)
  deriving DecidableEq, Repr

/-- Whether an operation is a track-removal operation. -/
def Op.isRemove : Op → Bool
  | .remove _ _ => true
  | _ => false

/-- Effect of one operation on a playlist's remote track list. -/
def apply_op (tracks : List Uri) : Op → List Uri
  | .add _ uris => tracks ++ uris
  | .remove _ uris => tracks.filter (fun u => !uris.contains u)
  | _ => tracks

/-- Effect of a sequence of operations on a playlist's remote track list. -/
def apply_ops (tracks : List Uri) (ops : List Op) : List Uri :=
  ops.foldl apply_op tracks

/-- The specification's "set difference `D - R` in `D`'s order". -/
def list_diff (D R : List Uri) : List Uri :=
  D.filter (fun u => decide (u ∉ R))

/-- Embedding of `update_monthly_playlists` line 219
(`to_add = [u for u in track_uris if u not in already]`), the mutation
plan for an existing monthly playlist. -/
def update_to_add (track_uris : List Uri) (already : List Uri) : List Uri :=
  track_uris.filter (fun u => !already.contains u)

/-- Embedding of `consolidate_old_monthly_playlists` line 403
(`to_add = [u for u in filtered_tracks if u and isinstance(u, str) and u not in already]`);
the `isinstance` test is always true in this typed model and Python's
truthiness test on a string is the non-emptiness test. -/
def consolidate_to_add (filtered_tracks : List Uri) (already : List Uri) : List Uri :=
  filtered_tracks.filter (fun u => !(u == "") && !already.contains u)

/-- Operations issued by the existing-playlist branch of
`update_monthly_playlists` (lines 216-230): the additions, in chunks of
50, followed by a description refresh.  No other mutation happens there. -/
def update_existing_ops (pid : String) (track_uris already : List Uri) : List Op :=
  (chunked (update_to_add track_uris already) 50).map (Op.add pid) ++ [Op.updDescription pid]

/-- Operations issued by the existing-yearly branch of
`consolidate_old_monthly_playlists` (lines 401-413): each chunk is
re-filtered to `valid` and the add call is skipped when `valid` is empty. -/
def consolidate_existing_ops (pid : String) (filtered_tracks already : List Uri) : List Op :=
  ((chunked (consolidate_to_add filtered_tracks already) 50).filterMap
    (fun c =>
      if (c.filter (fun u => !(u == ""))).isEmpty then none
      else some (Op.add pid (c.filter (fun u => !(u == "")))))) ++ [Op.updDescription pid]

theorem update_to_add_eq_diff (D R : List Uri) :
    update_to_add D R = list_diff D R := by
  unfold update_to_add list_diff
  apply List.filter_congr
  intro u _
  simp [List.contains, List.elem_eq_mem]

theorem consolidate_to_add_eq_diff (D R : List Uri) (hD : ∀ u ∈ D, u ≠ "") :
    consolidate_to_add D R = list_diff D R := by
  unfold consolidate_to_add list_diff
  apply List.filter_congr
  intro u hu
  have := hD u hu
  simp [List.contains, List.elem_eq_mem, this]

theorem apply_ops_adds (pid : String) (R : List Uri) :
    ∀ (chunks : List (List Uri)),
      apply_ops R (chunks.map (Op.add pid)) = R ++ chunks.flatten := by
  intro chunks
  induction chunks generalizing R with
  | nil => simp [apply_ops]
  | cons c chunks ih =>
    simp only [List.map_cons, apply_ops, List.foldl_cons, List.flatten_cons]
    have := ih (R ++ c)
    simp only [apply_ops] at this
    rw [apply_op, this, List.append_assoc]

theorem update_existing_ops_no_remove (pid : String) (D R : List Uri) :
    ∀ op ∈ update_existing_ops pid D R, op.isRemove = false := by
  intro op hop
  unfold update_existing_ops at hop
  rcases List.mem_append.1 hop with h | h
  · obtain ⟨c, _, rfl⟩ := List.mem_map.1 h
    rfl
  · simp only [List.mem_singleton] at h
    subst h
    rfl

theorem consolidate_existing_ops_no_remove (pid : String) (D R : List Uri) :
    ∀ op ∈ consolidate_existing_ops pid D R, op.isRemove = false := by
  intro op hop
  unfold consolidate_existing_ops at hop
  rcases List.mem_append.1 hop with h | h
  · obtain ⟨c, _, hc⟩ := List.mem_filterMap.1 h
    by_cases hemp : (c.filter (fun u => !(u == ""))).isEmpty
    · rw [if_pos hemp] at hc
      cases hc
    · rw [if_neg hemp] at hc
      cases hc
      rfl
  · simp only [List.mem_singleton] at h
    subst h
    rfl

theorem apply_update_existing_ops (pid : String) (D R : List Uri) :
    apply_ops R (update_existing_ops pid D R) = R ++ list_diff D R := by
  unfold update_existing_ops apply_ops
  rw [List.foldl_append]
  have h := apply_ops_adds pid R (chunked (update_to_add D R) 50)
  simp only [apply_ops] at h
  rw [h, chunked_join _ 50 (by omega), update_to_add_eq_diff]
  rfl

/-- C2: for an existing managed playlist with remote track set `R` and
desired track list `D`, the reconciliation step (both in
`update_monthly_playlists` and in the existing-yearly branch of
`consolidate_old_monthly_playlists`) computes its mutation plan as
exactly `D - R` in `D`'s order, issues it purely as additions (never a
removal operation), and the resulting remote state extends `R`, so no
track of `R` is ever removed. -/
theorem c2_reconciliation_additive (pid : String) (D R : List Uri)
    (hD : ∀ u ∈ D, u ≠ "") :
    update_to_add D R = list_diff D R ∧
    consolidate_to_add D R = list_diff D R ∧
    (∀ op ∈ update_existing_ops pid D R, op.isRemove = false) ∧
    (∀ op ∈ consolidate_existing_ops pid D R, op.isRemove = false) ∧
    apply_ops R (update_existing_ops pid D R) = R ++ list_diff D R ∧
    (∀ u ∈ R, u ∈ apply_ops R (update_existing_ops pid D R)) := by
  refine ⟨update_to_add_eq_diff D R, consolidate_to_add_eq_diff D R hD,
    update_existing_ops_no_remove pid D R, consolidate_existing_ops_no_remove pid D R,
    apply_update_existing_ops pid D R, ?_⟩
  intro u hu
  rw [apply_update_existing_ops]
  exact List.mem_append.2 (Or.inl hu)

/-- Witness for C2 at a concrete input. -/
theorem c2_reconciliation_additive_witness :
    update_to_add ["a", "b", "c"] ["b"] = list_diff ["a", "b", "c"] ["b"] ∧
    consolidate_to_add ["a", "b", "c"] ["b"] = list_diff ["a", "b", "c"] ["b"] ∧
    (∀ op ∈ update_existing_ops "p1" ["a", "b", "c"] ["b"], op.isRemove = false) ∧
    (∀ op ∈ consolidate_existing_ops "p1" ["a", "b", "c"] ["b"], op.isRemove = false) ∧
    apply_ops ["b"] (update_existing_ops "p1" ["a", "b", "c"] ["b"]) =
      ["b"] ++ list_diff ["a", "b", "c"] ["b"] ∧
    (∀ u ∈ ["b"], u ∈ apply_ops ["b"] (update_existing_ops "p1" ["a", "b", "c"] ["b"])) :=
  c2_reconciliation_additive "p1" ["a", "b", "c"] ["b"] (by decide)

/-- Order-preserving deduplication helper: Python's
`seen = set(); [u for u in l if not (u in seen or seen.add(u))]` and the
equivalent `if track not in all_tracks_set` accumulation loops. -/
def pyDedupAux [DecidableEq α] (seen : List α) : List α → List α
  | [] => []
  | a :: l => if a ∈ seen then pyDedupAux seen l else a :: pyDedupAux (a :: seen) l

/-- First-occurrence deduplication, preserving encounter order. -/
def pyDedup [DecidableEq α] (l : List α) : List α :=
  pyDedupAux [] l

theorem mem_pyDedupAux [DecidableEq α] {x : α} :
    ∀ (l seen : List α), x ∈ pyDedupAux seen l ↔ x ∈ l ∧ x ∉ seen := by
  intro l
  induction l with
  | nil => intro seen; simp [pyDedupAux]
  | cons a l ih =>
    intro seen
    unfold pyDedupAux
    by_cases ha : a ∈ seen
    · simp only [ha, if_true, ih, List.mem_cons]
      by_cases hx : x = a
      · subst hx; simp [ha]
      · simp [hx]
    · simp only [ha, if_false, List.mem_cons, ih]
      by_cases hx : x = a
      · subst hx; simp [ha]
      · simp [hx]

theorem mem_pyDedup [DecidableEq α] {x : α} {l : List α} :
    x ∈ pyDedup l ↔ x ∈ l := by
  simp [pyDedup, mem_pyDedupAux]

/-- Embedding of `update_monthly_playlists` line 159: months are absolute
month indices (`year * 12 + (month - 1)`), `relativedelta(months=i)`
subtraction is index subtraction, and the list is
`[(now - relativedelta(months=i)).strftime("%Y-%m") for i in range(keep_last_n_months)]`. -/
def calendar_last_n (t N : Nat) : List Nat :=
  (List.range N).map (fun i => t - i)

/-- Embedding of `recent_months = sorted(set(calendar_last_n))` (line 160):
first-occurrence deduplication followed by a stable ascending sort. -/
def recent_months (t N : Nat) : List Nat :=
  (pyDedup (calendar_last_n t N)).insertionSort (· ≤ ·)

/-- Embedding of the per-month body of `update_monthly_playlists`
(lines 204-262) for the single enabled monthly ("Finds") playlist type:
if a playlist with the computed name exists, add only missing tracks and
refresh the description; otherwise create the playlist (even when the
desired track list is empty), add the tracks in chunks, and refresh the
description.  The id of a freshly created playlist is represented by its
name. -/
def month_step (existing : List (String × String)) (name : String)
    (track_uris : List Uri) (remote_tracks : String → List Uri) : List Op :=
  match existing.lookup name with
  | some pid => update_existing_ops pid track_uris (remote_tracks pid)
  | none => Op.create name :: ((chunked track_uris 50).map (Op.add name) ++ [Op.updDescription name])

/-- Embedding of the month loop of `update_monthly_playlists`
(`for month in sorted(recent_months): ...`): the list of processed months
with the operations issued for each. -/
def update_monthly_run (t N : Nat) (existing : List (String × String))
    (month_tracks : Nat → List Uri) (name_of : Nat → String)
    (remote_tracks : String → List Uri) : List (Nat × List Op) :=
  (recent_months t N).map
    (fun m => (m, month_step existing (name_of m) (month_tracks m) remote_tracks))

theorem mem_recent_months {t N m : Nat} (ht : N ≤ t) :
    m ∈ recent_months t N ↔ t - N < m ∧ m ≤ t := by
  unfold recent_months calendar_last_n
  rw [List.mem_insertionSort, mem_pyDedup]
  simp only [List.mem_map, List.mem_range]
  constructor
  · rintro ⟨i, hi, rfl⟩
    omega
  · rintro ⟨h1, h2⟩
    exact ⟨t - m, by omega, by omega⟩

/-- C7: every run of `update_monthly_playlists` with `keep_last_n_months = N`
processes exactly the last `N` calendar months including the current month
`t`, and when the current month's playlist does not yet exist it is created
through the create branch even though its desired track list is empty. -/
theorem c7_window_and_empty_placeholder
    (t N : Nat) (existing : List (String × String)) (month_tracks : Nat → List Uri)
    (name_of : Nat → String) (remote_tracks : String → List Uri)
    (hN : 0 < N) (ht : N ≤ t) (hcur : existing.lookup (name_of t) = none)
    (hempty : month_tracks t = []) :
    (∀ m, m ∈ (update_monthly_run t N existing month_tracks name_of remote_tracks).map Prod.fst
        ↔ (t - N < m ∧ m ≤ t)) ∧
    (∃ ops, (t, ops) ∈ update_monthly_run t N existing month_tracks name_of remote_tracks ∧
      ops = [Op.create (name_of t), Op.updDescription (name_of t)]) := by
  constructor
  · intro m
    unfold update_monthly_run
    rw [List.map_map]
    have hc : (Prod.fst ∘ fun m =>
        (m, month_step existing (name_of m) (month_tracks m) remote_tracks)) = id := rfl
    rw [hc, List.map_id]
    exact mem_recent_months ht
  · refine ⟨month_step existing (name_of t) (month_tracks t) remote_tracks, ?_, ?_⟩
    · unfold update_monthly_run
      exact List.mem_map.2 ⟨t, (mem_recent_months ht).2 ⟨by omega, Nat.le_refl t⟩, rfl⟩
    · rw [hempty]
      unfold month_step
      rw [hcur]
      rfl

/-- Witness for C7 at a concrete input: November 2024 (month index
`2024 * 12 + 10`), `keep_last_n_months = 3`, no existing playlists and no
liked songs yet. -/
theorem c7_window_and_empty_placeholder_witness :
    (∀ m, m ∈ (update_monthly_run 24298 3 [] (fun _ => []) (fun _ => "AJFndsNov24") (fun _ => [])).map Prod.fst
        ↔ (24298 - 3 < m ∧ m ≤ 24298)) ∧
    (∃ ops, (24298, ops) ∈ update_monthly_run 24298 3 [] (fun _ => []) (fun _ => "AJFndsNov24") (fun _ => []) ∧
      ops = [Op.create "AJFndsNov24", Op.updDescription "AJFndsNov24"]) :=
  c7_window_and_empty_placeholder 24298 3 [] (fun _ => []) (fun _ => "AJFndsNov24")
    (fun _ => []) (by decide) (by decide) rfl rfl

/-- Embedding of the play-count map of `consolidate_old_monthly_playlists`
lines 348-355: the year's streaming history is a list of play events
(one URI per play row), `track_stats` counts rows per URI, and
`play_count_map.get(uri, 0)` is therefore the number of occurrences of
`uri` in the year's events (0 when absent). -/
def play_count (year_events : List Uri) (u : Uri) : Nat :=
  year_events.count u

/-- The sort key ordering of line 360-363:
`all_tracks_list.sort(key=lambda uri: (play_count_map.get(uri, 0), 0), reverse=True)`.
With `reverse=True` Python sorts descending by count while keeping equal
elements in their original order (Python's sort is stable). -/
def mp_le (year_events : List Uri) (a b : Uri) : Prop :=
  play_count year_events b ≤ play_count year_events a

instance (year_events : List Uri) : DecidableRel (mp_le year_events) :=
  fun _ _ => Nat.decLe _ _

/-- The descending stable sort of line 360-363. -/
def resort_most_played (tracks : List Uri) (year_events : List Uri) : List Uri :=
  tracks.insertionSort (mp_le year_events)

/-- Embedding of the re-sort block of `consolidate_old_monthly_playlists`
(lines 330-369): the sort happens only when the gathered track list is
non-empty, the playlist type is "most_played", the tracks came from
existing monthly playlists, and the year has streaming-history rows;
otherwise the gathered order is kept. -/
def consolidation_resort (tracks_from_monthly : Bool) (ptype : String)
    (tracks : List Uri) (year_events : List Uri) : List Uri :=
  if !tracks.isEmpty && (ptype == "most_played") && tracks_from_monthly
      && !year_events.isEmpty then
    resort_most_played tracks year_events
  else
    tracks

theorem mp_le_total (year_events : List Uri) (a b : Uri) :
    mp_le year_events a b ∨ mp_le year_events b a :=
  (Nat.le_total (play_count year_events b) (play_count year_events a)).imp id id

theorem pairwise_of_all_rel {r : α → α → Prop} (hr : ∀ a b, r a b) :
    ∀ l : List α, l.Pairwise r := by
  intro l
  induction l with
  | nil => exact .nil
  | cons a l ih => exact .cons (fun b _ => hr a b) ih

/-- C6: when the yearly "most played" track list has been gathered from
existing monthly playlists, the re-sorted list is a permutation of the
gathered list (tracks absent from streaming history are kept, not
dropped), it is ordered by descending play count for that calendar year,
ties keep their original encounter order (stable sort), and every track
absent from history (count 0) ends up after all tracks present in
history. -/
theorem c6_most_played_resort (tracks year_events : List Uri) :
    List.Perm (consolidation_resort true "most_played" tracks year_events) tracks ∧
    (consolidation_resort true "most_played" tracks year_events).Pairwise
      (mp_le year_events) ∧
    (∀ a b : Uri, play_count year_events a = play_count year_events b →
      List.Sublist [a, b] tracks →
      List.Sublist [a, b] (consolidation_resort true "most_played" tracks year_events)) ∧
    (∀ a b : Uri,
      List.Sublist [a, b] (consolidation_resort true "most_played" tracks year_events) →
      play_count year_events a = 0 → play_count year_events b = 0) := by
  haveI : IsTotal Uri (mp_le year_events) := ⟨mp_le_total year_events⟩
  haveI : IsTrans Uri (mp_le year_events) :=
    ⟨fun _ _ _ h1 h2 => Nat.le_trans h2 h1⟩
  unfold consolidation_resort
  by_cases hcond : (!tracks.isEmpty && ("most_played" == "most_played")
      && true && !year_events.isEmpty) = true
  · rw [if_pos hcond]
    unfold resort_most_played
    refine ⟨List.perm_insertionSort _ tracks, List.sorted_insertionSort _ tracks, ?_, ?_⟩
    · intro a b hab hsub
      exact List.pair_sublist_insertionSort (le_of_eq hab.symm) hsub
    · intro a b hsub ha
      have hp : List.Pairwise (mp_le year_events) [a, b] :=
        (List.sorted_insertionSort (mp_le year_events) tracks).sublist hsub
      have := List.rel_of_pairwise_cons hp (List.mem_singleton.2 rfl)
      unfold mp_le at this
      omega
  · rw [if_neg hcond]
    simp only [Bool.and_eq_true, beq_self_eq_true, Bool.not_eq_true', and_true,
      Bool.and_true, Bool.true_and, not_and, Bool.not_eq_false] at hcond
    refine ⟨List.Perm.refl tracks, ?_, fun a b _ hsub => hsub, ?_⟩
    · by_cases htr : tracks.isEmpty
      · rw [List.isEmpty_iff] at htr
        subst htr
        exact .nil
      · have hev : year_events.isEmpty = true :=
          hcond (Bool.eq_false_iff.mpr htr)
        rw [List.isEmpty_iff] at hev
        subst hev
        exact pairwise_of_all_rel (fun a b => Nat.le_refl 0) tracks
    · intro a b hsub ha
      by_cases htr : tracks.isEmpty
      · rw [List.isEmpty_iff] at htr
        subst htr
        simp at hsub
      · have hev : year_events.isEmpty = true :=
          hcond (Bool.eq_false_iff.mpr htr)
        rw [List.isEmpty_iff] at hev
        subst hev
        simp [play_count]

/-- Two-character zero-padded decimal rendering of a month number, as a
list of code points: both `strftime("%Y-%m")` and the keys of
`MONTH_NAMES` ("01" .. "12") render months this way. -/
def pad2 (m : Nat) : List Nat := [48 + m / 10, 48 + m % 10]

/-- Four-character decimal rendering of a year (1000-9999), as a list of
code points: `strftime("%Y")` and Python's `f"{year}"` agree on it for
four-digit years. -/
def year4 (y : Nat) : List Nat :=
  [48 + y / 1000, 48 + y % 1000 / 100, 48 + y % 100 / 10, 48 + y % 10]

/-- The "YYYY-MM" key compared in `consolidate_old_monthly_playlists`:
`cutoff_year_month = cutoff_date.strftime("%Y-%m")` (line 65) on one side
and `month_str = f"{year}-{month_num}"` (line 117, `month_num` being the
zero-padded key of `MONTH_NAMES`) on the other.  `45` is the code point
of the dash. -/
def ym_key (y m : Nat) : List Nat := year4 y ++ 45 :: pad2 m

/-- Python string comparison `s <= t`: lexicographic by code point, with
a proper prefix ordered before its extensions. -/
def pyLe : List Nat → List Nat → Bool
  | [], _ => true
  | _ :: _, [] => false
  | a :: s, b :: t => decide (a < b) || (a == b && pyLe s t)

theorem pyLe_cons_iff (a b : Nat) (s t : List Nat) :
    (pyLe (a :: s) (b :: t) = true) ↔ (a < b ∨ (a = b ∧ pyLe s t = true)) := by
  simp [pyLe]

theorem pyLe_year4 (y1 y2 : Nat) (r1 r2 : List Nat)
    (hy1 : y1 ≤ 9999) (hy2 : y2 ≤ 9999) :
    pyLe (year4 y1 ++ r1) (year4 y2 ++ r2) = true ↔
      (y1 < y2 ∨ (y1 = y2 ∧ pyLe r1 r2 = true)) := by
  simp only [year4, List.cons_append, List.nil_append]
  rw [pyLe_cons_iff, pyLe_cons_iff, pyLe_cons_iff, pyLe_cons_iff]
  constructor
  · rintro (h | ⟨h1, (h | ⟨h2, (h | ⟨h3, (h | ⟨h4, h5⟩)⟩)⟩)⟩)
    · left; omega
    · left; omega
    · left; omega
    · left; omega
    · by_cases he : y1 = y2
      · exact Or.inr ⟨he, h5⟩
      · left; omega
  · rintro (h | ⟨h, h5⟩)
    · rcases Nat.lt_trichotomy (y1 / 1000) (y2 / 1000) with h1 | h1 | h1
      · left; omega
      · right
        refine ⟨by omega, ?_⟩
        rcases Nat.lt_trichotomy (y1 % 1000 / 100) (y2 % 1000 / 100) with h2 | h2 | h2
        · left; omega
        · right
          refine ⟨by omega, ?_⟩
          rcases Nat.lt_trichotomy (y1 % 100 / 10) (y2 % 100 / 10) with h3 | h3 | h3
          · left; omega
          · right
            refine ⟨by omega, ?_⟩
            left; omega
          · exfalso; omega
        · exfalso; omega
      · exfalso; omega
    · subst h
      exact Or.inr ⟨rfl, Or.inr ⟨rfl, Or.inr ⟨rfl, Or.inr ⟨rfl, h5⟩⟩⟩⟩

theorem pyLe_pad2 (m1 m2 : Nat) :
    pyLe (pad2 m1) (pad2 m2) = true ↔ m1 ≤ m2 := by
  simp only [pad2]
  rw [pyLe_cons_iff, pyLe_cons_iff]
  constructor
  · rintro (h | ⟨h1, (h | ⟨h2, _⟩)⟩) <;> omega
  · intro h
    rcases Nat.lt_trichotomy (m1 / 10) (m2 / 10) with h1 | h1 | h1
    · left; omega
    · right
      refine ⟨by omega, ?_⟩
      rcases Nat.lt_trichotomy (m1 % 10) (m2 % 10) with h2 | h2 | h2
      · left; omega
      · right; exact ⟨by omega, by simp [pyLe]⟩
      · exfalso; omega
    · exfalso; omega

/-- Lexicographic comparison of "YYYY-MM" keys coincides with the
chronological order on (year, month). -/
theorem pyLe_ym_key (y1 m1 y2 m2 : Nat)
    (hy1 : y1 ≤ 9999) (hy2 : y2 ≤ 9999) :
    pyLe (ym_key y1 m1) (ym_key y2 m2) = true ↔
      (y1 < y2 ∨ (y1 = y2 ∧ m1 ≤ m2)) := by
  unfold ym_key
  rw [pyLe_year4 y1 y2 _ _ hy1 hy2, pyLe_cons_iff, pyLe_pad2 m1 m2]
  omega

/-- A calendar month as an absolute month index, `year * 12 + (month - 1)`
with `month` in 1..12. -/
def month_idx (y m : Nat) : Nat := y * 12 + (m - 1)

/-- Year of an absolute month index. -/
def idx_year (i : Nat) : Nat := i / 12

/-- 1-based month of an absolute month index. -/
def idx_month (i : Nat) : Nat := i % 12 + 1

/-- Embedding of the selection test of `consolidate_old_monthly_playlists`:
`cutoff_date = datetime.now() - relativedelta(months=keep_last_n_months)`
(line 64; subtracting `N` from the current absolute month index `t`) and
line 121's string comparison `month_str <= cutoff_year_month` deciding
whether the monthly playlist for (`y`, `m`) is consolidated. -/
def consolidation_selected (y m t N : Nat) : Bool :=
  pyLe (ym_key y m) (ym_key (idx_year (t - N)) (idx_month (t - N)))

/-- Embedding of the gathering loop of `consolidate_old_monthly_playlists`
lines 300-309: the tracks of the selected monthly playlists, in playlist
and track order, first occurrence only (`all_tracks_list` guarded by
`all_tracks_set`). -/
def gather_monthly_tracks (monthlies : List (List Uri)) : List Uri :=
  pyDedup monthlies.flatten

/-- Embedding of the create-or-update step for the yearly playlist
(lines 394-428): when the yearly playlist exists, apply the add-only diff
of `consolidate_existing_ops` to its current tracks; when it does not,
the created playlist holds `valid_tracks` (line 423), the gathered list
with empty values dropped. -/
def yearly_after (existing_yearly : Option (List Uri)) (filtered_tracks : List Uri) : List Uri :=
  match existing_yearly with
  | some already => apply_ops already (consolidate_existing_ops "yearly" filtered_tracks already)
  | none => filtered_tracks.filter (fun u => !(u == ""))

theorem apply_consolidate_chunks (pid : String) :
    ∀ (chunks : List (List Uri)) (R : List Uri),
      apply_ops R (chunks.filterMap
        (fun c =>
          if (c.filter (fun u => !(u == ""))).isEmpty then none
          else some (Op.add pid (c.filter (fun u => !(u == ""))))))
      = R ++ (chunks.map (fun c => c.filter (fun u => !(u == "")))).flatten := by
  intro chunks
  induction chunks with
  | nil => intro R; simp [apply_ops]
  | cons c chunks ih =>
    intro R
    rw [List.filterMap_cons]
    by_cases hemp : (c.filter (fun u => !(u == ""))).isEmpty
    · rw [if_pos hemp, ih R, List.map_cons, List.flatten_cons, List.isEmpty_iff.1 hemp,
        List.nil_append]
    · rw [if_neg hemp]
      have h2 : apply_ops R (Op.add pid (c.filter (fun u => !(u == ""))) ::
          chunks.filterMap (fun c =>
            if (c.filter (fun u => !(u == ""))).isEmpty then none
            else some (Op.add pid (c.filter (fun u => !(u == "")))))) =
          apply_ops (R ++ c.filter (fun u => !(u == "")))
            (chunks.filterMap (fun c =>
              if (c.filter (fun u => !(u == ""))).isEmpty then none
              else some (Op.add pid (c.filter (fun u => !(u == "")))))) := rfl
      rw [h2, ih, List.map_cons, List.flatten_cons, List.append_assoc]

theorem consolidate_to_add_self_filter (D R : List Uri) :
    (consolidate_to_add D R).filter (fun u => !(u == "")) = consolidate_to_add D R := by
  unfold consolidate_to_add
  rw [List.filter_filter]
  apply List.filter_congr
  intro u _
  cases h : (u == "") <;> simp [h]

theorem apply_consolidate_existing_ops (pid : String) (D R : List Uri) :
    apply_ops R (consolidate_existing_ops pid D R) = R ++ consolidate_to_add D R := by
  unfold consolidate_existing_ops apply_ops
  rw [List.foldl_append]
  have h := apply_consolidate_chunks pid (chunked (consolidate_to_add D R) 50) R
  simp only [apply_ops] at h
  rw [h]
  rw [← List.filter_flatten, chunked_join _ 50 (by omega), consolidate_to_add_self_filter]
  rfl

theorem toFinset_pyDedup (l : List Uri) : (pyDedup l).toFinset = l.toFinset := by
  apply Finset.ext
  intro u
  simp [List.mem_toFinset, mem_pyDedup]

/-- C3: with `consolidate_old_monthly_playlists(keep_last_n_months = N)`
evaluated in month `t`, a monthly playlist of calendar month (`y`, `m`)
is selected for consolidation exactly when its month index is at or
before `t - N`, so the last `N` months including the current one remain
monthly; and the yearly playlist of the year and type receives the
deduplicated union of the consolidated monthlies' tracks: a freshly
created yearly playlist holds exactly the order-preserving deduplication
of their concatenation, and an existing one ends up with its previous
tracks united with all the monthlies' tracks. -/
theorem c3_consolidation_window_and_union
    (t N : Nat) (monthlies : List (List Uri)) (R : List Uri)
    (hcut_lo : 12000 ≤ t - N) (hcut_hi : t - N ≤ 119999)
    (hmon : ∀ u ∈ monthlies.flatten, u ≠ "") :
    (∀ y m, 1000 ≤ y → y ≤ 9999 → 1 ≤ m → m ≤ 12 →
        (consolidation_selected y m t N = true ↔ month_idx y m ≤ t - N)) ∧
    yearly_after none (gather_monthly_tracks monthlies) = pyDedup monthlies.flatten ∧
    (yearly_after (some R) (gather_monthly_tracks monthlies)).toFinset
      = R.toFinset ∪ monthlies.flatten.toFinset := by
  refine ⟨?_, ?_, ?_⟩
  · intro y m hy1 hy2 hm1 hm2
    unfold consolidation_selected
    rw [pyLe_ym_key y m (idx_year (t - N)) (idx_month (t - N)) hy2 (by unfold idx_year; omega)]
    unfold idx_year idx_month month_idx
    omega
  · have hy : yearly_after none (gather_monthly_tracks monthlies)
        = (pyDedup monthlies.flatten).filter (fun u => !(u == "")) := rfl
    rw [hy]
    apply List.filter_eq_self.2
    intro u hu
    have : u ∈ monthlies.flatten := mem_pyDedup.1 hu
    have := hmon u this
    simp [this]
  · have hy : yearly_after (some R) (gather_monthly_tracks monthlies)
        = apply_ops R (consolidate_existing_ops "yearly" (pyDedup monthlies.flatten) R) := rfl
    rw [hy, apply_consolidate_existing_ops]
    apply Finset.ext
    intro u
    by_cases hu : u ∈ R
    · simp [List.mem_toFinset, hu]
    · simp only [List.mem_toFinset, List.mem_append, Finset.mem_union, List.mem_toFinset]
      unfold consolidate_to_add
      constructor
      · rintro (h | h)
        · exact Or.inl h
        · right
          exact mem_pyDedup.1 (List.mem_of_mem_filter h)
      · rintro (h | h)
        · exact absurd h hu
        · right
          apply List.mem_filter.2
          refine ⟨mem_pyDedup.2 h, ?_⟩
          have hne := hmon u h
          simp [List.contains, List.elem_eq_mem, hu, hne]

/-- Witness for C3 at the specification's worked example: evaluated in
November 2024 (absolute month index `2024 * 12 + 10 = 24298`) with
`keep_last_n_months = 3`, over two monthly playlists and an existing
yearly playlist. -/
theorem c3_consolidation_window_and_union_witness :
    (∀ y m, 1000 ≤ y → y ≤ 9999 → 1 ≤ m → m ≤ 12 →
        (consolidation_selected y m 24298 3 = true ↔ month_idx y m ≤ 24298 - 3)) ∧
    yearly_after none (gather_monthly_tracks [["a", "b"], ["b", "c"]])
      = pyDedup [["a", "b"], ["b", "c"]].flatten ∧
    (yearly_after (some ["z"]) (gather_monthly_tracks [["a", "b"], ["b", "c"]])).toFinset
      = (["z"] : List Uri).toFinset ∪ [["a", "b"], ["b", "c"]].flatten.toFinset :=
  c3_consolidation_window_and_union 24298 3 [["a", "b"], ["b", "c"]] ["z"]
    (by decide) (by decide) (by decide)

/-- Outcome of the safe-deletion subsystem: the reported success flag, the
backup (the target's track list) when one was requested, and whether the
remote delete was issued. -/
structure DeleteResult where
  success : Bool
  backup : Option (List Uri)
  deleted : Bool
  deriving DecidableEq, Repr

/-- Modelled from the spec: `safe_delete_playlist` lives in
`src/scripts/automation/data_protection.py`, which is not among the
provided sources (only its callers are).  Spec section 4.3: fetch the
target's full track list; if `create_backup`, write a backup before any
mutation; if `verify_tracks_preserved_in` is given, re-fetch that
playlist's tracks bypassing the cache and require every target track to
be a member, aborting with `success = False` and no deletion when any is
missing; otherwise issue the remote delete and report success. -/
def safe_delete_playlist (target_tracks : List Uri)
    (create_backup : Bool) (verify_tracks_preserved_in : Option (List Uri)) : DeleteResult :=
  let backup := if create_backup then some target_tracks else none
  match verify_tracks_preserved_in with
  | some succ_tracks =>
      if target_tracks.all (fun u => succ_tracks.contains u) then
        ⟨true, backup, true⟩
      else
        ⟨false, backup, false⟩
  | none => ⟨true, backup, true⟩

/-- Embedding of the deletion step of `consolidate_old_monthly_playlists`
(lines 429-451) for one monthly playlist: compute
`missing_tracks = monthly_tracks - final_yearly_tracks`; when non-empty,
skip the deletion; otherwise delete through `safe_delete_playlist` with
`verify_tracks_preserved_in` set to the yearly playlist.  Returns whether
the monthly playlist was deleted. -/
def consolidation_delete_one (final_yearly_tracks monthly_tracks : List Uri) : Bool :=
  let missing_tracks := monthly_tracks.filter (fun u => !final_yearly_tracks.contains u)
  if !missing_tracks.isEmpty then false
  else (safe_delete_playlist monthly_tracks true (some final_yearly_tracks)).deleted


theorem consolidation_delete_only_if_preserved (yt mt : List Uri)
    (h : consolidation_delete_one yt mt = true) : ∀ u ∈ mt, u ∈ yt := by
  intro u hu
  by_contra hy
  have hmem : u ∈ mt.filter (fun u => !yt.contains u) := by
    apply List.mem_filter.2
    simp [hu, List.contains, List.elem_eq_mem, hy]
  have hne : (mt.filter (fun u => !yt.contains u)).isEmpty = false := by
    rcases hfe : mt.filter (fun u => !yt.contains u) with _ | ⟨a, l⟩
    · rw [hfe] at hmem
      cases hmem
    · rfl
  simp only [consolidation_delete_one] at h
  rw [hne] at h
  simp at h

theorem pyLe_total : ∀ s t : List Nat, pyLe s t = true ∨ pyLe t s = true := by
  intro s
  induction s with
  | nil => intro t; left; rfl
  | cons a s ih =>
    intro t
    cases t with
    | nil => right; rfl
    | cons b t =>
      rcases Nat.lt_trichotomy a b with h | h | h
      · left; rw [pyLe_cons_iff]; exact Or.inl h
      · subst h
        rcases ih t with h2 | h2
        · left; rw [pyLe_cons_iff]; exact Or.inr ⟨rfl, h2⟩
        · right; rw [pyLe_cons_iff]; exact Or.inr ⟨rfl, h2⟩
      · right; rw [pyLe_cons_iff]; exact Or.inl h

theorem pyLe_trans : ∀ s t u : List Nat,
    pyLe s t = true → pyLe t u = true → pyLe s u = true := by
  intro s
  induction s with
  | nil => intro t u _ _; rfl
  | cons a s ih =>
    intro t u h1 h2
    cases t with
    | nil => exact Bool.noConfusion h1
    | cons b t =>
      cases u with
      | nil => exact Bool.noConfusion h2
      | cons c u =>
        rw [pyLe_cons_iff] at h1 h2 ⊢
        rcases h1 with h1 | ⟨rfl, h1⟩
        · rcases h2 with h2 | ⟨rfl, h2⟩
          · exact Or.inl (Nat.lt_trans h1 h2)
          · exact Or.inl h1
        · rcases h2 with h2 | ⟨rfl, h2⟩
          · exact Or.inl h2
          · exact Or.inr ⟨rfl, ih t u h1 h2⟩

/-- Python's `<=` on strings (used by `sorted(..., key=lambda x: x[0])`):
lexicographic comparison of the code-point sequences. -/
def str_le (a b : String) : Bool :=
  pyLe (a.toList.map Char.toNat) (b.toList.map Char.toNat)

/-- A playlist as seen by the duplicate-cleanup pass: its (unique) name,
its id, and its fetched track list. -/
structure Playlist where
  name : String
  pid : String
  tracks : List Uri
  deriving DecidableEq, Repr

/-- Equality of the frozen track sets of two track lists
(`frozenset(tracks)` comparison): mutual membership inclusion. -/
def set_beq (a b : List Uri) : Bool :=
  a.all (fun u => b.contains u) && b.all (fun u => a.contains u)

theorem set_beq_iff (a b : List Uri) : set_beq a b = true ↔ a.toFinset = b.toFinset := by
  unfold set_beq
  rw [Bool.and_eq_true, List.all_eq_true, List.all_eq_true]
  constructor
  · rintro ⟨h1, h2⟩
    apply Finset.ext
    intro u
    simp only [List.mem_toFinset]
    constructor
    · intro hu
      have := h1 u hu
      simpa [List.contains, List.elem_eq_mem] using this
    · intro hu
      have := h2 u hu
      simpa [List.contains, List.elem_eq_mem] using this
  · intro h
    constructor
    · intro u hu
      have : u ∈ b := by
        have := Finset.ext_iff.1 h u
        simp only [List.mem_toFinset] at this
        exact this.1 hu
      simpa [List.contains, List.elem_eq_mem] using this
    · intro u hu
      have : u ∈ a := by
        have := Finset.ext_iff.1 h u
        simp only [List.mem_toFinset] at this
        exact this.2 hu
      simpa [List.contains, List.elem_eq_mem] using this

theorem set_beq_refl (a : List Uri) : set_beq a a = true :=
  (set_beq_iff a a).2 rfl

/-- Insertion into the `playlist_track_sets` dictionary of
`delete_duplicate_playlists` (lines 585-602): the dictionary is keyed by
the frozen track set (represented by the first-seen track list),
in insertion order, with each playlist appended to its set's entry. -/
def add_to_groups (p : Playlist) : List (List Uri × List Playlist) → List (List Uri × List Playlist)
  | [] => [(p.tracks, [p])]
  | (k, g) :: gs =>
      if set_beq p.tracks k then (k, g ++ [p]) :: gs
      else (k, g) :: add_to_groups p gs

/-- The full `playlist_track_sets` grouping, built over the playlists in
iteration order. -/
def dup_groups (pls : List Playlist) : List (List Uri × List Playlist) :=
  pls.foldl (fun gs p => add_to_groups p gs) []

/-- Embedding of the deletion phase of `delete_duplicate_playlists`
(lines 604-638): for every group with more than one playlist and a
non-empty track set, sort by name (Python's stable sort), keep the first,
and delete each of the others through `safe_delete_playlist` with the
kept playlist as the preservation target.  Returns the (deleted, kept)
pairs of the deletions that went through. -/
def dup_deletions (pls : List Playlist) : List (Playlist × Playlist) :=
  (dup_groups pls).flatMap (fun kg =>
    if decide (1 < kg.2.length) && !kg.1.isEmpty then
      match kg.2.insertionSort (fun a b => str_le a.name b.name = true) with
      | [] => []
      | keep :: dups =>
          dups.filterMap (fun d =>
            if (safe_delete_playlist d.tracks true (some keep.tracks)).deleted then
              some (d, keep)
            else none)
    else [])

theorem add_to_groups_inv (P : Playlist → Prop) (p : Playlist) (hp : P p) :
    ∀ gs : List (List Uri × List Playlist),
    (∀ k g, (k, g) ∈ gs → ∀ q ∈ g, set_beq q.tracks k = true ∧ P q) →
    ∀ k g, (k, g) ∈ add_to_groups p gs → ∀ q ∈ g, set_beq q.tracks k = true ∧ P q := by
  intro gs
  induction gs with
  | nil =>
    intro _ k g hmem q hq
    simp only [add_to_groups, List.mem_singleton, Prod.mk.injEq] at hmem
    obtain ⟨hk, hg⟩ := hmem
    subst hk
    subst hg
    simp only [List.mem_singleton] at hq
    subst hq
    exact ⟨set_beq_refl _, hp⟩
  | cons head gs ih =>
    obtain ⟨k0, g0⟩ := head
    intro hinv k g hmem q hq
    simp only [add_to_groups] at hmem
    by_cases hk : set_beq p.tracks k0 = true
    · rw [if_pos hk] at hmem
      rcases List.mem_cons.1 hmem with heq | htail
      · rw [Prod.ext_iff] at heq
        obtain ⟨h1, h2⟩ := heq
        simp only at h1 h2
        rw [h2] at hq
        rcases List.mem_append.1 hq with hg0 | hp'
        · have := hinv k0 g0 (List.mem_cons_self _ _) q hg0
          rw [h1]
          exact this
        · simp only [List.mem_singleton] at hp'
          subst hp'
          rw [h1]
          exact ⟨hk, hp⟩
      · exact hinv k g (List.mem_cons_of_mem _ htail) q hq
    · rw [if_neg hk] at hmem
      rcases List.mem_cons.1 hmem with heq | htail
      · rw [Prod.ext_iff] at heq
        obtain ⟨h1, h2⟩ := heq
        simp only at h1 h2
        rw [h2] at hq
        rw [h1]
        exact hinv k0 g0 (List.mem_cons_self _ _) q hq
      · exact ih (fun k' g' h' => hinv k' g' (List.mem_cons_of_mem _ h')) k g htail q hq

theorem dup_groups_inv (pls : List Playlist) :
    ∀ k g, (k, g) ∈ dup_groups pls → ∀ q ∈ g, set_beq q.tracks k = true ∧ q ∈ pls := by
  have main : ∀ (rest : List Playlist) (base : List Playlist)
      (acc : List (List Uri × List Playlist)),
      (∀ p ∈ rest, p ∈ base) →
      (∀ k g, (k, g) ∈ acc → ∀ q ∈ g, set_beq q.tracks k = true ∧ q ∈ base) →
      ∀ k g, (k, g) ∈ rest.foldl (fun gs p => add_to_groups p gs) acc →
        ∀ q ∈ g, set_beq q.tracks k = true ∧ q ∈ base := by
    intro rest
    induction rest with
    | nil => intro base acc _ hacc k g hmem q hq; exact hacc k g hmem q hq
    | cons p rest ih =>
      intro base acc hrest hacc k g hmem q hq
      refine ih base (add_to_groups p acc)
        (fun r hr => hrest r (List.mem_cons_of_mem _ hr))
        (add_to_groups_inv (· ∈ base) p (hrest p (List.mem_cons_self _ _)) acc hacc)
        k g hmem q hq
  intro k g hmem q hq
  exact main pls pls [] (fun _ h => h) (by intro k g h; cases h) k g hmem q hq

/-- Shared workhorse for the duplicate-cleanup properties: everything the
deletion phase guarantees for a (deleted, kept) pair. -/
theorem dup_deletion_props (pls : List Playlist) (d keep : Playlist)
    (h : (d, keep) ∈ dup_deletions pls) :
    d ∈ pls ∧ keep ∈ pls ∧
    d.tracks.toFinset = keep.tracks.toFinset ∧
    d.tracks ≠ [] ∧
    str_le keep.name d.name = true ∧
    (∃ k g, (k, g) ∈ dup_groups pls ∧ d ∈ g ∧ keep ∈ g ∧ 1 < g.length) ∧
    (safe_delete_playlist d.tracks true (some keep.tracks)).deleted = true := by
  unfold dup_deletions at h
  obtain ⟨kg, hkg, hmem⟩ := List.mem_flatMap.1 h
  obtain ⟨k, g⟩ := kg
  by_cases hcond : (decide (1 < g.length) && !k.isEmpty) = true
  · rw [if_pos hcond] at hmem
    rw [Bool.and_eq_true, decide_eq_true_eq, Bool.not_eq_true'] at hcond
    haveI : IsTotal Playlist (fun a b => str_le a.name b.name = true) :=
      ⟨fun a b => pyLe_total _ _⟩
    haveI : IsTrans Playlist (fun a b => str_le a.name b.name = true) :=
      ⟨fun _ _ _ h1 h2 => pyLe_trans _ _ _ h1 h2⟩
    rcases hsort : g.insertionSort (fun a b => str_le a.name b.name = true) with _ | ⟨kp, dups⟩
    · rw [hsort] at hmem
      cases hmem
    · rw [hsort] at hmem
      obtain ⟨d', hd', hd'eq⟩ := List.mem_filterMap.1 hmem
      by_cases hdel : (safe_delete_playlist d'.tracks true (some kp.tracks)).deleted = true
      · rw [if_pos hdel] at hd'eq
        rw [Option.some.injEq, Prod.mk.injEq] at hd'eq
        obtain ⟨h1, h2⟩ := hd'eq
        rw [h1] at hd' hdel
        rw [h2] at hdel hsort
        have hd_in_g : d ∈ g := by
          rw [← List.mem_insertionSort (fun a b => str_le a.name b.name = true), hsort]
          exact List.mem_cons_of_mem _ hd'
        have hk_in_g : keep ∈ g := by
          rw [← List.mem_insertionSort (fun a b => str_le a.name b.name = true), hsort]
          exact List.mem_cons_self _ _
        have hdinv := dup_groups_inv pls k g hkg d hd_in_g
        have hkinv := dup_groups_inv pls k g hkg keep hk_in_g
        have hsorted := List.sorted_insertionSort
          (fun a b => str_le a.name b.name = true) g
        rw [hsort] at hsorted
        have hle : str_le keep.name d.name = true :=
          List.rel_of_sorted_cons hsorted d hd'
        have hsets : d.tracks.toFinset = keep.tracks.toFinset := by
          rw [(set_beq_iff _ _).1 hdinv.1, (set_beq_iff _ _).1 hkinv.1]
        refine ⟨hdinv.2, hkinv.2, hsets, ?_, hle,
          ⟨k, g, hkg, hd_in_g, hk_in_g, hcond.1⟩, hdel⟩
        intro hnil
        have hkey := (set_beq_iff _ _).1 hdinv.1
        rw [hnil] at hkey
        have : k = [] := by
          rcases hk0 : k with _ | ⟨a, k'⟩
          · rfl
          · exfalso
            have : a ∈ k.toFinset := by rw [hk0]; simp
            rw [← hkey] at this
            simp at this
        rw [this] at hcond
        exact absurd hcond.2 (by simp)
      · rw [if_neg hdel] at hd'eq
        cases hd'eq
  · rw [if_neg hcond] at hmem
    cases hmem

/-- C10: duplicate-playlist cleanup only deletes a playlist as part of a
group of two or more playlists with exactly equal, non-empty track sets;
the playlist kept is an alphabetically least name of the group (the first
after the stable sort by name); every deletion goes through
`safe_delete_playlist` with preservation verified against the kept
playlist; and a playlist with an empty track set is never deleted as a
duplicate. -/
theorem c10_duplicate_cleanup (pls : List Playlist) (d keep : Playlist)
    (h : (d, keep) ∈ dup_deletions pls) :
    d ∈ pls ∧ keep ∈ pls ∧
    d.tracks.toFinset = keep.tracks.toFinset ∧
    d.tracks ≠ [] ∧
    str_le keep.name d.name = true ∧
    (∃ k g, (k, g) ∈ dup_groups pls ∧ d ∈ g ∧ keep ∈ g ∧ 1 < g.length) ∧
    (safe_delete_playlist d.tracks true (some keep.tracks)).deleted = true :=
  dup_deletion_props pls d keep h

/-- Witness for C10 at a concrete input: two playlists with the same
non-empty track set; the alphabetically later one is deleted against the
earlier one. -/
theorem c10_duplicate_cleanup_witness :
    (⟨"B", "id2", ["t2", "t1"]⟩ : Playlist)
        ∈ ([⟨"A", "id1", ["t1", "t2"]⟩, ⟨"B", "id2", ["t2", "t1"]⟩] : List Playlist) ∧
    (⟨"A", "id1", ["t1", "t2"]⟩ : Playlist)
        ∈ ([⟨"A", "id1", ["t1", "t2"]⟩, ⟨"B", "id2", ["t2", "t1"]⟩] : List Playlist) ∧
    (["t2", "t1"] : List Uri).toFinset = (["t1", "t2"] : List Uri).toFinset ∧
    (["t2", "t1"] : List Uri) ≠ [] ∧
    str_le "A" "B" = true ∧
    (∃ k g, (k, g) ∈ dup_groups [⟨"A", "id1", ["t1", "t2"]⟩, ⟨"B", "id2", ["t2", "t1"]⟩] ∧
      (⟨"B", "id2", ["t2", "t1"]⟩ : Playlist) ∈ g ∧
      (⟨"A", "id1", ["t1", "t2"]⟩ : Playlist) ∈ g ∧ 1 < g.length) ∧
    (safe_delete_playlist ["t2", "t1"] true (some ["t1", "t2"])).deleted = true :=
  c10_duplicate_cleanup [⟨"A", "id1", ["t1", "t2"]⟩, ⟨"B", "id2", ["t2", "t1"]⟩]
    ⟨"B", "id2", ["t2", "t1"]⟩ ⟨"A", "id1", ["t1", "t2"]⟩ (by decide)

/-- Character-level `str.startswith` (Python strings are sequences of
code points). -/
def str_startsWith (s pre : String) : Bool :=
  pre.toList.isPrefixOf s.toList

/-- Character-level `str[n:]`. -/
def str_drop (s : String) (n : Nat) : String :=
  ⟨s.toList.drop n⟩

/-- Character-level `len(str)`. -/
def str_len (s : String) : Nat :=
  s.toList.length

/-- Python `str.isdigit()` restricted to ASCII digits (the only digits the
playlist names contain): false on the empty string. -/
def py_isdigit (s : String) : Bool :=
  !(s == "") && s.toList.all (fun c => c.isDigit)

/-- Substring containment, Python's `needle in hay`. -/
def list_isInfixOf [BEq α] : List α → List α → Bool
  | needle, [] => needle.isEmpty
  | needle, hay@(_ :: t) => needle.isPrefixOf hay || list_isInfixOf needle t

/-- `MONTH_NAMES.values()` under the default configuration
(`MONTH_NAMES_SHORT` from config.py). -/
def month_abbr_list : List String :=
  ["Jan", "Feb", "Mar", "Apr", "May", "Jun", "Jul", "Aug", "Sep", "Oct", "Nov", "Dec"]

/-- Embedding of `_is_automated_monthly_playlist` (lines 463-474): the
name matches `{owner}{prefix}{month}{year}` for one of the automated
name parts and a month abbreviation followed by a non-empty digit string. -/
def is_automated_monthly_playlist (name owner : String) (parts month_abbrs : List String) : Bool :=
  if name == "" || !str_startsWith name owner then false
  else
    parts.any (fun part =>
      str_startsWith (str_drop name (str_len owner)) part &&
      month_abbrs.any (fun abbr =>
        str_startsWith (str_drop (str_drop name (str_len owner)) (str_len part)) abbr &&
        decide (str_len abbr <
          str_len (str_drop (str_drop name (str_len owner)) (str_len part))) &&
        py_isdigit (str_drop
          (str_drop (str_drop name (str_len owner)) (str_len part)) (str_len abbr))))

/-- Embedding of `_is_automated_genre_playlist` (lines 477-484): the name
starts with the owner and the rest contains one of the genre slugs. -/
def is_automated_genre_playlist (name owner : String) : Bool :=
  if name == "" || !str_startsWith name owner then false
  else
    ["HipHop", "Hip Hop", "Dance", "Other", "Am"].any (fun sl =>
      list_isInfixOf sl.toList (str_drop name (str_len owner)).toList)

/-- Two-character short year, `str(year)[2:]` for years 2000-9999. -/
def year_short_str (y : Nat) : String :=
  ⟨[Char.ofNat (48 + y % 100 / 10), Char.ofNat (48 + y % 10)]⟩

/-- Embedding of the `yearly_names` set of
`delete_automated_monthly_and_genre_playlists` (lines 508-514) under the
default configuration (owner "AJ", yearly template "{owner}{prefix}{year}"
with "Finds"/"Top"/"Discovery", separators "none", capitalization
"preserve"): the protected yearly playlist names for 2015 through the
current year plus one. -/
def legacy_yearly_names (current_year : Nat) : List String :=
  (List.range (current_year + 2 - 2015)).flatMap (fun i =>
    ["AJFinds" ++ year_short_str (2015 + i),
     "AJTop" ++ year_short_str (2015 + i),
     "AJDiscovery" ++ year_short_str (2015 + i)])

/-- Embedding of the selection loop of
`delete_automated_monthly_and_genre_playlists` (lines 516-524): keep
playlists starting with the owner, not in the protected yearly-name set,
matching the monthly or genre automated pattern. -/
def legacy_to_delete (existing : List Playlist) (current_year : Nat) : List Playlist :=
  existing.filter (fun p =>
    str_startsWith p.name "AJ" &&
    !(legacy_yearly_names current_year).contains p.name &&
    (is_automated_monthly_playlist p.name "AJ" ["Finds", "Top", "Discovery"] month_abbr_list
     || is_automated_genre_playlist p.name "AJ"))

/-- Embedding of the deletion loop of
`delete_automated_monthly_and_genre_playlists` (lines 531-546): every
selected playlist is deleted through `safe_delete_playlist` with
`create_backup=True` and `verify_tracks_preserved_in=None`. -/
def legacy_delete_run (existing : List Playlist) (current_year : Nat) :
    List (Playlist × DeleteResult) :=
  (legacy_to_delete existing current_year).map
    (fun p => (p, safe_delete_playlist p.tracks true none))

/-- C1 counterexample: in an account whose only playlist is the legacy
monthly playlist "AJFindsJan23" holding track "t1" (so no successor
playlist contains "t1" at all), the legacy monthly/genre cleanup still
deletes it — `safe_delete_playlist` is called with
`verify_tracks_preserved_in=None`, performs no successor verification,
and reports a successful deletion (with a backup).  The deletion is an
automated deletion that executes although its track was never verified
present in any successor playlist, so the claim as stated is false. -/
theorem c1_counterexample :
    legacy_delete_run [⟨"AJFindsJan23", "id1", ["t1"]⟩] 2026
      = [(⟨"AJFindsJan23", "id1", ["t1"]⟩,
          ⟨true, some ["t1"], true⟩)] := by decide

/-- C1 (amended): the deletions of the consolidation path and of the
duplicate-cleanup path execute only if every track of the deleted
playlist is verified present in its designated successor (the yearly
archive, resp. the kept duplicate), and `safe_delete_playlist` never
deletes past a failing verification when a verification target is given;
the legacy monthly/genre cleanup path, however, deletes with a backup but
without successor verification (`verify_tracks_preserved_in=None`), and
such a call always deletes. -/
theorem c1_deletion_verification (yt mt target succ_tracks : List Uri)
    (pls : List Playlist) (d keep : Playlist)
    (hcons : consolidation_delete_one yt mt = true)
    (hdup : (d, keep) ∈ dup_deletions pls) :
    (∀ u ∈ mt, u ∈ yt) ∧
    (∀ u ∈ d.tracks, u ∈ keep.tracks) ∧
    ((safe_delete_playlist target true (some succ_tracks)).deleted = true →
      ∀ u ∈ target, u ∈ succ_tracks) ∧
    (safe_delete_playlist target true none).deleted = true := by
  refine ⟨consolidation_delete_only_if_preserved yt mt hcons, ?_, ?_, rfl⟩
  · have hsets := (dup_deletion_props pls d keep hdup).2.2.1
    intro u hu
    have h1 : u ∈ d.tracks.toFinset := List.mem_toFinset.2 hu
    rw [hsets] at h1
    exact List.mem_toFinset.1 h1
  · intro hdel u hu
    have hred : safe_delete_playlist target true (some succ_tracks)
        = if target.all (fun u => succ_tracks.contains u) then
            ⟨true, some target, true⟩ else ⟨false, some target, false⟩ := rfl
    rw [hred] at hdel
    by_cases hall : target.all (fun u => succ_tracks.contains u) = true
    · rw [List.all_eq_true] at hall
      have := hall u hu
      simpa [List.contains, List.elem_eq_mem] using this
    · rw [if_neg hall] at hdel
      exact absurd hdel (by simp)

/-- Witness for the amended C1 at concrete inputs. -/
theorem c1_deletion_verification_witness :
    (∀ u ∈ (["a"] : List Uri), u ∈ (["a", "b"] : List Uri)) ∧
    (∀ u ∈ (["t2", "t1"] : List Uri), u ∈ (["t1", "t2"] : List Uri)) ∧
    ((safe_delete_playlist ["x"] true (some ["x", "y"])).deleted = true →
      ∀ u ∈ (["x"] : List Uri), u ∈ (["x", "y"] : List Uri)) ∧
    (safe_delete_playlist ["x"] true none).deleted = true :=
  c1_deletion_verification ["a", "b"] ["a"] ["x"] ["x", "y"]
    [⟨"A", "id1", ["t1", "t2"]⟩, ⟨"B", "id2", ["t2", "t1"]⟩]
    ⟨"B", "id2", ["t2", "t1"]⟩ ⟨"A", "id1", ["t1", "t2"]⟩ (by decide) (by decide)

/-- File-system operations performed on the snapshot-cache file while
`_save_snapshot_cache` runs. -/
inductive FsOp
  | truncate
  | writeAll (data : String)
  deriving DecidableEq, Repr

/-- Effect of one file operation on the cache file's content:
`open(path, "w")` truncates the file in place; a completed
`json.dump(cache, f)` leaves the serialized data. -/
def apply_fs (_content : String) : FsOp → String
  | .truncate => ""
  | .writeAll data => data

/-- Content of the cache file after a sequence of operations, starting
from previous content `old`. -/
def run_fs (old : String) (ops : List FsOp) : String :=
  ops.foldl apply_fs old

/-- A representative JSON rendering of the snapshot cache (a playlist-id
to marker map); the exact JSON text is immaterial to the claim, only that
it is written into the already-truncated target file. -/
def json_of_cache (cache : List (String × String)) : String :=
  "\x7b" ++ String.intercalate ","
    (cache.map (fun kv => "\"" ++ kv.1 ++ "\":\"" ++ kv.2 ++ "\"")) ++ "\x7d"

/-- Embedding of `_save_snapshot_cache` (`_sync_impl/descriptions.py`
lines 31-37): `with open(path, "w", encoding="utf-8") as f:
json.dump(cache, f, indent=0)` — the target file itself is opened in
write mode (truncating it) and the JSON is streamed into it.  No
temporary file and no atomic replace are involved. -/
def save_snapshot_cache_ops (cache : List (String × String)) : List FsOp :=
  [.truncate, .writeAll (json_of_cache cache)]

/-- The claim's write-temp-then-replace property for one cache write: a
crash after any prefix of the operations leaves either the previous valid
cache content or the completed new content, never anything else. -/
def crash_safe (old : String) (ops : List FsOp) (new_content : String) : Prop :=
  ∀ k, run_fs old (ops.take k) = old ∨ run_fs old (ops.take k) = new_content

/-- C8 counterexample: the snapshot-cache write of `_save_snapshot_cache`
is not write-temp-then-replace: starting from a valid previous cache, a
crash after the `open(path, "w")` truncation but before `json.dump`
completes leaves an empty file, which is neither the previous cache nor
the new one. -/
theorem c8_counterexample :
    ¬ crash_safe "\x7b\"p1\":\"m1\"\x7d"
      (save_snapshot_cache_ops [("p1", "m2")])
      (json_of_cache [("p1", "m2")]) := by
  intro h
  rcases h 1 with h1 | h1 <;> exact absurd h1 (by decide)

/-- C8 (amended): `_save_snapshot_cache` writes the cache file by
truncating it in place and then writing the JSON serialization: a crash
before the open leaves the previous cache, a completed run leaves the new
serialization, but a crash between the truncating open and the completed
write leaves an empty (half-written) file rather than the previous valid
cache. -/
theorem c8_direct_truncate_then_write (old : String) (cache : List (String × String)) :
    run_fs old ((save_snapshot_cache_ops cache).take 0) = old ∧
    run_fs old ((save_snapshot_cache_ops cache).take 1) = "" ∧
    run_fs old (save_snapshot_cache_ops cache) = json_of_cache cache :=
  ⟨rfl, rfl, rfl⟩

/-- A Python string at code-point granularity (Python `str` is a sequence
of code points, lone surrogates included). -/
abbrev PyStr := List Nat

/-- The Unicode general categories the sanitiser's tests distinguish. -/
inductive UCat
  | Cc | Cf | Cs | Co | Cn | So | Sk | Other
  deriving DecidableEq, Repr

/-- Partial model of `unicodedata.category`, faithful on the ranges the
sanitiser inspects: the control/format/surrogate/private-use ranges map
to their C categories, the emoji blocks and the replacement character to
So, the skin-tone modifiers to Sk, everything beyond the Unicode range to
Cn.  All other code points are collapsed into `Other` (never stripped);
code points that are Cn in real Unicode but `Other` here only make the
model strip less than CPython, which no claim below relies on. -/
def ucat (cp : Nat) : UCat :=
  if cp ≤ 0x1F ∨ (0x7F ≤ cp ∧ cp ≤ 0x9F) then .Cc
  else if cp = 0xAD ∨ (0x200B ≤ cp ∧ cp ≤ 0x200F) ∨ (0x202A ≤ cp ∧ cp ≤ 0x202E)
      ∨ (0x2060 ≤ cp ∧ cp ≤ 0x2064) ∨ cp = 0xFEFF then .Cf
  else if 0xD800 ≤ cp ∧ cp ≤ 0xDFFF then .Cs
  else if (0xE000 ≤ cp ∧ cp ≤ 0xF8FF) ∨ (0xF0000 ≤ cp ∧ cp ≤ 0x10FFFD) then .Co
  else if 0x110000 ≤ cp then .Cn
  else if 0x1F3FB ≤ cp ∧ cp ≤ 0x1F3FF then .Sk
  else if (0x1F300 ≤ cp ∧ cp ≤ 0x1FAFF) ∨ (0x2600 ≤ cp ∧ cp ≤ 0x27BF)
      ∨ cp = 0xFFFD then .So
  else .Other

/-- `cat.startswith("C")` of the source. -/
def UCat.isC : UCat → Bool
  | .Cc | .Cf | .Cs | .Co | .Cn => true
  | _ => false

/-- The per-character keep test of `_strip_emoji_and_problematic`
(description_helpers.py lines 138-158): drop C categories, variation
selectors, symbol-other in the emoji blocks, and skin-tone modifier
symbols. -/
def keep_char (cp : Nat) : Bool :=
  !((ucat cp).isC
    || (decide (0xFE00 ≤ cp) && decide (cp ≤ 0xFE0F))
    || ((ucat cp == UCat.So) && decide (0x1F300 ≤ cp))
    || ((ucat cp == UCat.Sk) && decide (0x1F3FB ≤ cp) && decide (cp ≤ 0x1F3FF)))

/-- Embedding of `_strip_emoji_and_problematic`. -/
def strip_emoji_and_problematic (s : PyStr) : PyStr :=
  s.filter keep_char

/-- The character class of the control-character regex of
`sanitize_description_for_api` line 186:
`[\x00-\x08\x0B-\x0C\x0E-\x1F\x7F]`. -/
def is_ctrl_regex_hit (cp : Nat) : Bool :=
  decide (cp ≤ 0x8) || decide (cp = 0xB) || decide (cp = 0xC)
    || (decide (0xE ≤ cp) && decide (cp ≤ 0x1F)) || decide (cp = 0x7F)

/-- Canonical decomposition table of the NFC model; only the pair the
development exercises (e-acute) is populated. -/
def canon_decomp (cp : Nat) : Option (Nat × Nat) :=
  if cp = 0xE9 then some (0x65, 0x301) else none

/-- One-character canonical decomposition. -/
def decomp_char (cp : Nat) : List Nat :=
  match canon_decomp cp with
  | some ab => [ab.1, ab.2]
  | none => [cp]

/-- Canonical composition table, the inverse of `canon_decomp`. -/
def compose_pair (a b : Nat) : Option Nat :=
  if a = 0x65 ∧ b = 0x301 then some 0xE9 else none

/-- Composition pass of the NFC model: compose adjacent pairs from the
left, as the canonical composition algorithm does for starters followed
by a combining mark.  Structural on a fuel that is always the string
length. -/
def nfc_compose_fuel : Nat → PyStr → PyStr
  | _, [] => []
  | _, [a] => [a]
  | 0, s => s
  | fuel + 1, a :: b :: rest =>
    match compose_pair a b with
    | some c => nfc_compose_fuel fuel (c :: rest)
    | none => a :: nfc_compose_fuel fuel (b :: rest)

/-- Model of `unicodedata.normalize("NFC", s)`: canonical decomposition
followed by canonical composition, over the populated tables. -/
def nfc (s : PyStr) : PyStr :=
  nfc_compose_fuel (s.flatMap decomp_char).length (s.flatMap decomp_char)

/-- Split on the newline code point, Python's `s.split("\n")`: always a
non-empty list of lines. -/
def py_split_nl : PyStr → List PyStr
  | [] => [[]]
  | c :: rest =>
    match py_split_nl rest with
    | [] => [[c]]
    | l :: ls => if c = 0xA then [] :: l :: ls else (c :: l) :: ls

/-- Embedding of the truncation block of `sanitize_description_for_api`
(lines 190-200): prefer keeping the whole first line when it fits within
`max_length - 10`, else cut at `max_length - 3` and append an ellipsis.
(`py_split_nl` never returns an empty list, so the head default of
`headI` is never used.) -/
def truncate_for_api (s : PyStr) (max_length : Nat) : PyStr :=
  if max_length < s.length then
    if (py_split_nl s).headI.length + 10 ≤ max_length then
      if 0 < max_length - (py_split_nl s).headI.length - 5 ∧
          max_length - (py_split_nl s).headI.length - 5
            < (List.intercalate [0xA] (py_split_nl s).tail).length then
        (py_split_nl s).headI ++ 0xA ::
          ((List.intercalate [0xA] (py_split_nl s).tail).take
              (max_length - (py_split_nl s).headI.length - 5)
            ++ [0x2E, 0x2E, 0x2E])
      else
        (py_split_nl s).headI.take (max_length - 3) ++ [0x2E, 0x2E, 0x2E]
    else
      s.take (max_length - 3) ++ [0x2E, 0x2E, 0x2E]
  else s

/-- `s.encode("utf-8", errors="replace").decode("utf-8")` per character:
a lone surrogate is replaced by "?" on encoding, everything else
round-trips. -/
def encode_replace_char (cp : Nat) : Nat :=
  if 0xD800 ≤ cp ∧ cp ≤ 0xDFFF then 0x3F else cp

/-- The final hard clamp of `sanitize_description_for_api` (line 201-202). -/
def sanitize_clamp (s : PyStr) (max_length : Nat) : PyStr :=
  if max_length < s.length then s.take max_length else s

/-- Embedding of `sanitize_description_for_api`
(description_helpers.py lines 161-205): NFC-normalize, strip emoji and
problematic characters, remove the control-character class, remove
carriage returns, truncate to `max_length` (default 300, the Spotify
limit), clamp, and re-encode with replacement. -/
def sanitize_description_for_api (description : PyStr) (max_length : Nat := 300) : PyStr :=
  (sanitize_clamp
    (truncate_for_api
      (((strip_emoji_and_problematic (nfc description)).filter
          (fun cp => !is_ctrl_regex_hit cp)).filter
        (fun cp => !(cp == 0xD)))
      max_length)
    max_length).map encode_replace_char

theorem ucat_isC_of (cp : Nat)
    (hC : cp ≤ 0x1F ∨ (0x7F ≤ cp ∧ cp ≤ 0x9F) ∨ (0xD800 ≤ cp ∧ cp ≤ 0xDFFF)
      ∨ 0x110000 ≤ cp) :
    (ucat cp).isC = true := by
  unfold ucat
  rcases hC with h | h | h | h
  · rw [if_pos (Or.inl h)]; rfl
  · rw [if_pos (Or.inr h)]; rfl
  · rw [if_neg (by omega), if_neg (by omega), if_pos h]; rfl
  · rw [if_neg (by omega), if_neg (by omega), if_neg (by omega), if_neg (by omega),
      if_pos h]
    rfl

theorem keep_char_false_of_isC (cp : Nat) (h : (ucat cp).isC = true) :
    keep_char cp = false := by
  unfold keep_char
  rw [h]
  rfl

theorem keep_char_bounds (cp : Nat) (h : keep_char cp = true) :
    0x1F < cp ∧ ¬(0x7F ≤ cp ∧ cp ≤ 0x9F) ∧ ¬(0xD800 ≤ cp ∧ cp ≤ 0xDFFF)
      ∧ cp < 0x110000 := by
  refine ⟨?_, ?_, ?_, ?_⟩
  · by_contra hc
    rw [keep_char_false_of_isC cp (ucat_isC_of cp (Or.inl (by omega)))] at h
    cases h
  · intro hc
    rw [keep_char_false_of_isC cp (ucat_isC_of cp (Or.inr (Or.inl hc)))] at h
    cases h
  · intro hc
    rw [keep_char_false_of_isC cp (ucat_isC_of cp (Or.inr (Or.inr (Or.inl hc))))] at h
    cases h
  · by_contra hc
    rw [keep_char_false_of_isC cp (ucat_isC_of cp (Or.inr (Or.inr (Or.inr (by omega)))))] at h
    cases h

theorem split_nl_single (s : PyStr) (h : 0xA ∉ s) : py_split_nl s = [s] := by
  induction s with
  | nil => rfl
  | cons c rest ih =>
    have hc : c ≠ 0xA := fun hq => h (hq ▸ List.mem_cons_self c rest)
    have hr : 0xA ∉ rest := fun hq => h (List.mem_cons_of_mem c hq)
    show (match py_split_nl rest with
      | [] => [[c]]
      | l :: ls => if c = 0xA then [] :: l :: ls else (c :: l) :: ls) = [c :: rest]
    rw [ih hr]
    show (if c = 0xA then [] :: rest :: ([] : List PyStr) else (c :: rest) :: []) = [c :: rest]
    rw [if_neg hc]

theorem truncate_of_long (s : PyStr) (L : Nat) (hnl : 0xA ∉ s) (hlen : L < s.length) :
    truncate_for_api s L = s.take (L - 3) ++ [0x2E, 0x2E, 0x2E] := by
  unfold truncate_for_api
  rw [if_pos hlen, split_nl_single s hnl]
  simp only [List.headI, List.tail_cons]
  rw [if_neg (by omega)]

theorem mem_of_truncate (s : PyStr) (L : Nat) (hnl : 0xA ∉ s) :
    ∀ cp ∈ truncate_for_api s L, cp ∈ s ∨ cp = 0x2E := by
  intro cp hcp
  by_cases hlen : L < s.length
  · rw [truncate_of_long s L hnl hlen] at hcp
    rcases List.mem_append.1 hcp with h | h
    · exact Or.inl (List.mem_of_mem_take h)
    · simp only [List.mem_cons, List.not_mem_nil, or_false] at h
      rcases h with h | h | h <;> exact Or.inr h
  · unfold truncate_for_api at hcp
    rw [if_neg hlen] at hcp
    exact Or.inl hcp

theorem length_truncate (s : PyStr) (L : Nat) (hnl : 0xA ∉ s) (hL : 3 ≤ L) :
    (truncate_for_api s L).length ≤ L := by
  by_cases hlen : L < s.length
  · rw [truncate_of_long s L hnl hlen]
    rw [List.length_append, List.length_take]
    simp only [List.length_cons, List.length_nil]
    omega
  · unfold truncate_for_api
    rw [if_neg hlen]
    omega

theorem sanitize_length (s : PyStr) :
    (sanitize_description_for_api s).length ≤ 300 := by
  unfold sanitize_description_for_api sanitize_clamp
  rw [List.length_map]
  by_cases h : 300 < (truncate_for_api
      (((strip_emoji_and_problematic (nfc s)).filter (fun cp => !is_ctrl_regex_hit cp)).filter
        (fun cp => !(cp == 0xD))) 300).length
  · rw [if_pos h, List.length_take]
    omega
  · rw [if_neg h]
    omega

theorem mem_sanitize_props (s : PyStr) (cp : Nat)
    (h : cp ∈ sanitize_description_for_api s) :
    keep_char cp = true ∧ is_ctrl_regex_hit cp = false ∧ cp ≠ 0xD := by
  unfold sanitize_description_for_api sanitize_clamp at h
  obtain ⟨d, hd, rfl⟩ := List.mem_map.1 h
  have hd5 : d ∈ truncate_for_api
      (((strip_emoji_and_problematic (nfc s)).filter (fun cp => !is_ctrl_regex_hit cp)).filter
        (fun cp => !(cp == 0xD))) 300 := by
    by_cases hcl : 300 < (truncate_for_api
        (((strip_emoji_and_problematic (nfc s)).filter (fun cp => !is_ctrl_regex_hit cp)).filter
          (fun cp => !(cp == 0xD))) 300).length
    · rw [if_pos hcl] at hd
      exact List.mem_of_mem_take hd
    · rw [if_neg hcl] at hd
      exact hd
  have hnl : (0xA : Nat) ∉ ((strip_emoji_and_problematic (nfc s)).filter
      (fun cp => !is_ctrl_regex_hit cp)).filter (fun cp => !(cp == 0xD)) := by
    intro hmem
    have h1 := (List.mem_filter.1 hmem).1
    have h2 := (List.mem_filter.1 h1).1
    have h3 := (List.mem_filter.1 h2).2
    have hno : keep_char 0xA = false :=
      keep_char_false_of_isC 0xA (ucat_isC_of 0xA (Or.inl (by omega)))
    rw [hno] at h3
    cases h3
  rcases mem_of_truncate _ 300 hnl d hd5 with hmem | hdot
  · have h1 := List.mem_filter.1 hmem
    have h2 := List.mem_filter.1 h1.1
    have hkeep := (List.mem_filter.1 h2.1).2
    have hnotsur : ¬(0xD800 ≤ d ∧ d ≤ 0xDFFF) := (keep_char_bounds d hkeep).2.2.1
    have henc : encode_replace_char d = d := by
      unfold encode_replace_char
      rw [if_neg hnotsur]
    rw [henc]
    refine ⟨hkeep, ?_, ?_⟩
    · have hc := h2.2
      cases hh : is_ctrl_regex_hit d
      · rfl
      · rw [hh] at hc; cases hc
    · have hc := h1.2
      intro hq
      rw [hq] at hc
      simp at hc
  · subst hdot
    refine ⟨by decide, by decide, by decide⟩

theorem sanitize_fixed_of_nfc_fixed (s : PyStr)
    (h : nfc (sanitize_description_for_api s) = sanitize_description_for_api s) :
    sanitize_description_for_api (sanitize_description_for_api s)
      = sanitize_description_for_api s := by
  have hprops := mem_sanitize_props s
  conv_lhs => rw [sanitize_description_for_api]
  rw [h]
  have h2 : strip_emoji_and_problematic (sanitize_description_for_api s)
      = sanitize_description_for_api s :=
    List.filter_eq_self.2 (fun cp hcp => (hprops cp hcp).1)
  rw [h2]
  have h3 : (sanitize_description_for_api s).filter (fun cp => !is_ctrl_regex_hit cp)
      = sanitize_description_for_api s := by
    apply List.filter_eq_self.2
    intro cp hcp
    rw [(hprops cp hcp).2.1]
    rfl
  rw [h3]
  have h4 : (sanitize_description_for_api s).filter (fun cp => !(cp == 0xD))
      = sanitize_description_for_api s := by
    apply List.filter_eq_self.2
    intro cp hcp
    have hne := (hprops cp hcp).2.2
    simp [hne]
  rw [h4]
  have h5 : truncate_for_api (sanitize_description_for_api s) 300
      = sanitize_description_for_api s := by
    unfold truncate_for_api
    rw [if_neg (by have := sanitize_length s; omega)]
  rw [h5]
  have h6 : sanitize_clamp (sanitize_description_for_api s) 300
      = sanitize_description_for_api s := by
    unfold sanitize_clamp
    rw [if_neg (by have := sanitize_length s; omega)]
  rw [h6]
  have h7 : ∀ cp ∈ sanitize_description_for_api s, encode_replace_char cp = cp := by
    intro cp hcp
    unfold encode_replace_char
    rw [if_neg ((keep_char_bounds cp (hprops cp hcp).1).2.2.1)]
  calc (sanitize_description_for_api s).map encode_replace_char
      = (sanitize_description_for_api s).map id := List.map_congr_left h7
    _ = sanitize_description_for_api s := List.map_id _

/-- C5 counterexample: sanitisation is not idempotent.  For the input
"e", U+0001, U+0301 (combining acute): the first pass NFC-normalizes (a
no-op, the control character blocks composition), then strips the
control character, leaving "e" directly followed by the combining accent
— a string that is no longer NFC-normalized.  The second pass therefore
composes it into "é", changing the output. -/
theorem c5_counterexample :
    sanitize_description_for_api (sanitize_description_for_api [0x65, 0x1, 0x301])
      ≠ sanitize_description_for_api [0x65, 0x1, 0x301] := by decide

/-- C5 (amended): for every input string, `sanitize_description_for_api`
returns a string of length at most the maximum description length (300)
that contains no control characters (no C0 or C1 controls) and is valid
Unicode text (no lone surrogates, no code point beyond the Unicode
range); re-applying sanitisation is a no-op whenever the first output is
still NFC-normalized, but character stripping can expose a decomposable
pair and make the output non-NFC, in which case a second pass
re-composes it, so unconditional idempotence fails. -/
theorem c5_sanitize_api (s : PyStr) :
    (sanitize_description_for_api s).length ≤ 300 ∧
    (∀ cp ∈ sanitize_description_for_api s,
      0x1F < cp ∧ ¬(0x7F ≤ cp ∧ cp ≤ 0x9F) ∧ ¬(0xD800 ≤ cp ∧ cp ≤ 0xDFFF)
        ∧ cp < 0x110000) ∧
    (nfc (sanitize_description_for_api s) = sanitize_description_for_api s →
      sanitize_description_for_api (sanitize_description_for_api s)
        = sanitize_description_for_api s) := by
  refine ⟨sanitize_length s, ?_, sanitize_fixed_of_nfc_fixed s⟩
  intro cp hcp
  exact keep_char_bounds cp (mem_sanitize_props s cp hcp).1

/-- Witness for C5 at a concrete input (a letter, an emoji and a control
character; the output is NFC-fixed so the conditional idempotence
applies). -/
theorem c5_sanitize_api_witness :
    (sanitize_description_for_api [0x48, 0x1F600, 0x7, 0x69]).length ≤ 300 ∧
    (∀ cp ∈ sanitize_description_for_api [0x48, 0x1F600, 0x7, 0x69],
      0x1F < cp ∧ ¬(0x7F ≤ cp ∧ cp ≤ 0x9F) ∧ ¬(0xD800 ≤ cp ∧ cp ≤ 0xDFFF)
        ∧ cp < 0x110000) ∧
    (nfc (sanitize_description_for_api [0x48, 0x1F600, 0x7, 0x69])
        = sanitize_description_for_api [0x48, 0x1F600, 0x7, 0x69] →
      sanitize_description_for_api (sanitize_description_for_api [0x48, 0x1F600, 0x7, 0x69])
        = sanitize_description_for_api [0x48, 0x1F600, 0x7, 0x69]) :=
  c5_sanitize_api [0x48, 0x1F600, 0x7, 0x69]

/-- Python `\s` on the ASCII whitespace the descriptions contain. -/
def is_ws (cp : Nat) : Bool :=
  cp == 0x20 || cp == 0x9 || cp == 0xA || cp == 0xD || cp == 0xB || cp == 0xC

/-- Python `str.strip()`. -/
def py_strip (s : PyStr) : PyStr :=
  ((s.dropWhile is_ws).reverse.dropWhile is_ws).reverse

/-- One attempted match of the regex `\s*OPEN[^CLOSE]*CLOSE\s*` at the
start of `s`, returning the remainder after the match. -/
def try_group (openC closeC : Nat) (s : PyStr) : Option PyStr :=
  match s.dropWhile is_ws with
  | [] => none
  | c :: rest =>
    if c = openC then
      match rest.dropWhile (fun x => !(x == closeC)) with
      | [] => none
      | c2 :: rest2 => if c2 = closeC then some (rest2.dropWhile is_ws) else none
    else none

/-- `re.sub(r"\s*OPEN[^CLOSE]*CLOSE\s*", " ", s)`: scan left to right,
replacing each match by one space.  Structural on a fuel that is always
the string length. -/
def sub_group_fuel (openC closeC : Nat) : Nat → PyStr → PyStr
  | _, [] => []
  | 0, s => s
  | fuel + 1, s =>
    match try_group openC closeC s with
    | some rem => 0x20 :: sub_group_fuel openC closeC fuel rem
    | none =>
      match s with
      | [] => []
      | c :: rest => c :: sub_group_fuel openC closeC fuel rest

/-- Python `str.split()` (split on whitespace runs, no empty items). -/
def split_ws_fuel : Nat → PyStr → List PyStr
  | 0, _ => []
  | fuel + 1, s =>
    match s.dropWhile is_ws with
    | [] => []
    | c :: rest =>
      ((c :: rest).takeWhile (fun x => !is_ws x)) ::
        split_ws_fuel fuel ((c :: rest).dropWhile (fun x => !is_ws x))

/-- Embedding of `_strip_parentheses`
(description_helpers.py lines 286-293): remove parenthesised and
bracketed segments with their surrounding whitespace, then collapse
whitespace runs via `" ".join(text.split())`. -/
def strip_parentheses (text : PyStr) : PyStr :=
  List.intercalate [0x20]
    (split_ws_fuel
      ((sub_group_fuel 0x5B 0x5D
          (sub_group_fuel 0x28 0x29 text.length text).length
          (sub_group_fuel 0x28 0x29 text.length text)).length + 1)
      (sub_group_fuel 0x5B 0x5D
        (sub_group_fuel 0x28 0x29 text.length text).length
        (sub_group_fuel 0x28 0x29 text.length text)))

/-- Embedding of `build_simple_description`
(description_helpers.py lines 296-309): a single base line, parentheses
stripped; no mood or genre content. -/
def build_simple_description (base_line : PyStr) : PyStr :=
  if base_line.isEmpty then [] else strip_parentheses (py_strip base_line)

/-- The code points of a string literal. -/
def pystr_of (s : String) : PyStr :=
  s.toList.map Char.toNat

/-- ASCII lowering, modelling `re.IGNORECASE` over the ASCII name
patterns the templates produce. -/
def ascii_lower (cp : Nat) : Nat :=
  if 65 ≤ cp ∧ cp ≤ 90 then cp + 32 else cp

/-- Case-insensitive ASCII prefix test. -/
def ci_isPrefixOf (pat s : PyStr) : Bool :=
  (pat.map ascii_lower).isPrefixOf (s.map ascii_lower)

/-- ASCII digit test. -/
def is_ascii_digit (cp : Nat) : Bool :=
  decide (48 ≤ cp) && decide (cp ≤ 57)

/-- The month abbreviations of `description_helpers._MONTH_ABBR`. -/
def month_abbr_py : List PyStr :=
  month_abbr_list.map pystr_of

/-- One monthly pattern `^{owner}{part}(Jan|...|Dec)(\d{2})$` of
`get_base_description_line_for_playlist`, returning the matched month
and year text of the name. -/
def month_match (owner_part nm : PyStr) : Option (PyStr × PyStr) :=
  if ci_isPrefixOf owner_part nm then
    month_abbr_py.findSome? (fun abbr =>
      if ci_isPrefixOf abbr (nm.drop owner_part.length)
          && decide ((nm.drop owner_part.length).length = abbr.length + 2)
          && ((nm.drop owner_part.length).drop abbr.length).all is_ascii_digit then
        some ((nm.drop owner_part.length).take abbr.length,
          (nm.drop owner_part.length).drop abbr.length)
      else none)
  else none

/-- The yearly pattern `^{owner}{part}(\d{k})$` (k = 4 or 2). -/
def year_match (owner_part nm : PyStr) (k : Nat) : Option PyStr :=
  if ci_isPrefixOf owner_part nm
      && decide (nm.length = owner_part.length + k)
      && (nm.drop owner_part.length).all is_ascii_digit then
    some (nm.drop owner_part.length)
  else none

/-- Embedding of `get_base_description_line_for_playlist`
(description_helpers.py lines 30-109), under the default configuration
(owner "AJ", monthly/yearly name part "Finds", most-played "Top",
discovery "Discovery"). -/
def get_base_description_line_for_playlist (playlist_name : PyStr) : Option PyStr :=
  if (py_strip playlist_name).isEmpty then none
  else
    match month_match (pystr_of "AJFinds") (py_strip playlist_name) with
    | some p => some (pystr_of "Liked songs from " ++ p.1 ++ 0x20 :: p.2)
    | none =>
      match month_match (pystr_of "AJTop") (py_strip playlist_name) with
      | some p => some (pystr_of "Most played from " ++ p.1 ++ 0x20 :: p.2)
      | none =>
        match month_match (pystr_of "AJDiscovery") (py_strip playlist_name) with
        | some p => some (pystr_of "Discovery from " ++ p.1 ++ 0x20 :: p.2)
        | none =>
          match year_match (pystr_of "AJFinds") (py_strip playlist_name) 4 with
          | some y => some (pystr_of "Liked songs from " ++ y)
          | none =>
            match year_match (pystr_of "AJFinds") (py_strip playlist_name) 2 with
            | some y => some (pystr_of "Liked songs from 20" ++ y)
            | none => none

/-- Remote playlist metadata as returned by the
`api_call(sp.playlist, playlist_id, fields="description,name,snapshot_id")`
read (with the source's `pl.get(..., "") or ""` defaults applied). -/
structure RemotePlaylist where
  description : PyStr
  name : PyStr
  snapshot_id : PyStr
  deriving DecidableEq, Repr

/-- The remote interactions `_update_playlist_description_with_genres`
can perform. -/
inductive ApiEvent
  | readPlaylist (pid : String)
  | readTracks (pid : String)
  | changeDetails (pid : String) (desc : PyStr)
  deriving DecidableEq, Repr

/-- Whether an interaction mutates remote state. -/
def ApiEvent.isMutation : ApiEvent → Bool
  | .changeDetails _ _ => true
  | _ => false

/-- Result of one description update: the returned `changed` flag, the
remote interactions performed, and the description snapshot cache after
the call. -/
structure DescUpdateResult where
  changed : Bool
  calls : List ApiEvent
  cache_after : List (String × PyStr)
  deriving DecidableEq, Repr

/-- `cache[playlist_id] = snapshot_id` on the JSON-dict cache. -/
def cache_set (cache : List (String × PyStr)) (pid : String) (marker : PyStr) :
    List (String × PyStr) :=
  (pid, marker) :: cache.filter (fun kv => !(kv.1 == pid))

/-- `track_uris if track_uris is not None else get_playlist_tracks(...)`
(descriptions.py lines 63-64). -/
def resolved_tracks (track_uris : Option (List Uri)) (catalog_tracks : List Uri) : List Uri :=
  match track_uris with
  | some ts => ts
  | none => catalog_tracks

/-- The read interactions performed before any mutation: the metadata
read always happens; the catalog track fetch happens only when no track
list was passed in. -/
def desc_read_calls (pid : String) (track_uris : Option (List Uri)) : List ApiEvent :=
  match track_uris with
  | some _ => [.readPlaylist pid]
  | none => [.readPlaylist pid, .readTracks pid]

/-- The base-line derivation and text pipeline of
`_update_playlist_description_with_genres` (descriptions.py lines
72-94): first existing description line if non-empty, else the playlist
name; re-derive from the naming templates when it is just the name;
build, strip parentheses, sanitize and hard-truncate. -/
def compute_new_description (current_description playlist_name : PyStr) : PyStr :=
  sanitize_clamp
    (sanitize_description_for_api
      (strip_parentheses
        (build_simple_description
          (if (if (py_strip (py_split_nl (py_strip current_description)).headI).isEmpty then
                playlist_name
              else py_strip (py_split_nl (py_strip current_description)).headI).isEmpty
              || (py_strip (if (py_strip (py_split_nl (py_strip current_description)).headI).isEmpty then
                    playlist_name
                  else py_strip (py_split_nl (py_strip current_description)).headI)
                == py_strip playlist_name) then
            match get_base_description_line_for_playlist playlist_name with
            | some derived => derived
            | none =>
                if (py_strip (py_split_nl (py_strip current_description)).headI).isEmpty then
                  playlist_name
                else py_strip (py_split_nl (py_strip current_description)).headI
          else
            if (py_strip (py_split_nl (py_strip current_description)).headI).isEmpty then
              playlist_name
            else py_strip (py_split_nl (py_strip current_description)).headI)))
      300)
    300

/-- Embedding of `_update_playlist_description_with_genres`
(descriptions.py lines 40-142): read the remote metadata; skip when the
cached marker equals the (non-empty) live marker; skip when the resolved
track list is empty; skip when the computed description is blank; push
the description and advance the marker when it differs from the remote
one; otherwise just advance the marker.  (The UnicodeEncodeError retry
path of lines 115-129 is unreachable in the model: sanitized output
always encodes.) -/
def update_playlist_description_with_genres (remote : RemotePlaylist)
    (cache : List (String × PyStr)) (playlist_id : String)
    (track_uris : Option (List Uri)) (catalog_tracks : List Uri) : DescUpdateResult :=
  if !remote.snapshot_id.isEmpty
      && (cache.lookup playlist_id == some remote.snapshot_id) then
    ⟨false, [.readPlaylist playlist_id], cache⟩
  else if (resolved_tracks track_uris catalog_tracks).isEmpty then
    ⟨false, desc_read_calls playlist_id track_uris, cache⟩
  else if (py_strip (compute_new_description remote.description remote.name)).isEmpty then
    ⟨false, desc_read_calls playlist_id track_uris, cache⟩
  else if !(compute_new_description remote.description remote.name == remote.description) then
    ⟨true,
      desc_read_calls playlist_id track_uris
        ++ [.changeDetails playlist_id (compute_new_description remote.description remote.name)],
      if remote.snapshot_id.isEmpty then cache
      else cache_set cache playlist_id remote.snapshot_id⟩
  else
    ⟨false, desc_read_calls playlist_id track_uris,
      if remote.snapshot_id.isEmpty then cache
      else cache_set cache playlist_id remote.snapshot_id⟩

/-- C4 counterexample: with the cached marker equal to the live marker,
the update correctly skips and returns `changed = False`, but it does
not make zero remote API calls: obtaining the live marker itself is a
remote read (`api_call(sp.playlist, ...)`, descriptions.py line 53),
performed before the marker comparison, so exactly one remote call
happens. -/
theorem c4_counterexample :
    (update_playlist_description_with_genres
        ⟨pystr_of "Liked songs from Jan 26", pystr_of "AJFindsJan26", pystr_of "snapA"⟩
        [("p1", pystr_of "snapA")] "p1" none []).changed = false ∧
    (update_playlist_description_with_genres
        ⟨pystr_of "Liked songs from Jan 26", pystr_of "AJFindsJan26", pystr_of "snapA"⟩
        [("p1", pystr_of "snapA")] "p1" none []).calls ≠ [] := by
  constructor
  · decide
  · decide

/-- C4 (amended): for every playlist whose cached marker equals the
(non-empty) live marker, the description update makes exactly one remote
call — the metadata read that fetches the live marker — performs no API
mutation (pushes no description), leaves the cache unchanged, and
returns `changed = False`. -/
theorem c4_marker_skip (remote : RemotePlaylist) (cache : List (String × PyStr))
    (playlist_id : String) (track_uris : Option (List Uri)) (catalog_tracks : List Uri)
    (hsnap : remote.snapshot_id ≠ [])
    (hcache : cache.lookup playlist_id = some remote.snapshot_id) :
    (update_playlist_description_with_genres remote cache playlist_id
      track_uris catalog_tracks).changed = false ∧
    (update_playlist_description_with_genres remote cache playlist_id
      track_uris catalog_tracks).calls = [ApiEvent.readPlaylist playlist_id] ∧
    (∀ e ∈ (update_playlist_description_with_genres remote cache playlist_id
      track_uris catalog_tracks).calls, e.isMutation = false) ∧
    (update_playlist_description_with_genres remote cache playlist_id
      track_uris catalog_tracks).cache_after = cache := by
  have h1 : remote.snapshot_id.isEmpty = false := by
    cases hs : remote.snapshot_id with
    | nil => exact absurd hs hsnap
    | cons a l => rfl
  have hcond : (!remote.snapshot_id.isEmpty
      && (cache.lookup playlist_id == some remote.snapshot_id)) = true := by
    rw [h1, hcache]
    simp
  unfold update_playlist_description_with_genres
  rw [if_pos hcond]
  refine ⟨rfl, rfl, ?_, rfl⟩
  intro e he
  simp only [List.mem_singleton] at he
  subst he
  rfl

/-- Witness for the amended C4 at a concrete input. -/
theorem c4_marker_skip_witness :
    (update_playlist_description_with_genres
        ⟨pystr_of "d", pystr_of "AJFindsJan26", pystr_of "snapA"⟩
        [("p1", pystr_of "snapA")] "p1" (some ["spotify:track:a"]) []).changed = false ∧
    (update_playlist_description_with_genres
        ⟨pystr_of "d", pystr_of "AJFindsJan26", pystr_of "snapA"⟩
        [("p1", pystr_of "snapA")] "p1" (some ["spotify:track:a"]) []).calls
      = [ApiEvent.readPlaylist "p1"] ∧
    (∀ e ∈ (update_playlist_description_with_genres
        ⟨pystr_of "d", pystr_of "AJFindsJan26", pystr_of "snapA"⟩
        [("p1", pystr_of "snapA")] "p1" (some ["spotify:track:a"]) []).calls,
      e.isMutation = false) ∧
    (update_playlist_description_with_genres
        ⟨pystr_of "d", pystr_of "AJFindsJan26", pystr_of "snapA"⟩
        [("p1", pystr_of "snapA")] "p1" (some ["spotify:track:a"]) []).cache_after
      = [("p1", pystr_of "snapA")] :=
  c4_marker_skip ⟨pystr_of "d", pystr_of "AJFindsJan26", pystr_of "snapA"⟩
    [("p1", pystr_of "snapA")] "p1" (some ["spotify:track:a"]) []
    (by decide) (by decide)

/-- C9: for every playlist whose resolved track list is empty, the
description update returns `False`, performs no API mutation (pushes no
description), and leaves the cached marker untouched — regardless of
whether the live marker differs from the cached one. -/
theorem c9_empty_tracklist_no_update (remote : RemotePlaylist)
    (cache : List (String × PyStr)) (playlist_id : String)
    (track_uris : Option (List Uri)) (catalog_tracks : List Uri)
    (hres : resolved_tracks track_uris catalog_tracks = []) :
    (update_playlist_description_with_genres remote cache playlist_id
      track_uris catalog_tracks).changed = false ∧
    (∀ e ∈ (update_playlist_description_with_genres remote cache playlist_id
      track_uris catalog_tracks).calls, e.isMutation = false) ∧
    (update_playlist_description_with_genres remote cache playlist_id
      track_uris catalog_tracks).cache_after = cache := by
  unfold update_playlist_description_with_genres
  by_cases hskip : (!remote.snapshot_id.isEmpty
      && (cache.lookup playlist_id == some remote.snapshot_id)) = true
  · rw [if_pos hskip]
    refine ⟨rfl, ?_, rfl⟩
    intro e he
    simp only [List.mem_singleton] at he
    subst he
    rfl
  · rw [if_neg hskip]
    have hres' : (resolved_tracks track_uris catalog_tracks).isEmpty = true := by
      rw [hres]
      rfl
    rw [if_pos hres']
    refine ⟨rfl, ?_, rfl⟩
    intro e he
    cases track_uris with
    | some ts =>
      simp only [desc_read_calls, List.mem_singleton] at he
      subst he
      rfl
    | none =>
      simp only [desc_read_calls, List.mem_cons, List.not_mem_nil, or_false] at he
      rcases he with he | he <;> (subst he; rfl)

/-- Witness for C9 at a concrete input with differing markers and an
empty resolved track list. -/
theorem c9_empty_tracklist_no_update_witness :
    (update_playlist_description_with_genres
        ⟨pystr_of "d", pystr_of "AJFindsFeb26", pystr_of "snapNew"⟩
        [("p1", pystr_of "snapOld")] "p1" (some []) []).changed = false ∧
    (∀ e ∈ (update_playlist_description_with_genres
        ⟨pystr_of "d", pystr_of "AJFindsFeb26", pystr_of "snapNew"⟩
        [("p1", pystr_of "snapOld")] "p1" (some []) []).calls,
      e.isMutation = false) ∧
    (update_playlist_description_with_genres
        ⟨pystr_of "d", pystr_of "AJFindsFeb26", pystr_of "snapNew"⟩
        [("p1", pystr_of "snapOld")] "p1" (some []) []).cache_after
      = [("p1", pystr_of "snapOld")] :=
  c9_empty_tracklist_no_update ⟨pystr_of "d", pystr_of "AJFindsFeb26", pystr_of "snapNew"⟩
    [("p1", pystr_of "snapOld")] "p1" (some []) [] rfl

/-- Witness for C6 at a concrete input. -/
theorem c6_most_played_resort_witness :
    List.Perm (consolidation_resort true "most_played" ["a", "b"] ["b"]) ["a", "b"] ∧
    (consolidation_resort true "most_played" ["a", "b"] ["b"]).Pairwise (mp_le ["b"]) ∧
    (∀ a b : Uri, play_count ["b"] a = play_count ["b"] b →
      List.Sublist [a, b] ["a", "b"] →
      List.Sublist [a, b] (consolidation_resort true "most_played" ["a", "b"] ["b"])) ∧
    (∀ a b : Uri,
      List.Sublist [a, b] (consolidation_resort true "most_played" ["a", "b"] ["b"]) →
      play_count ["b"] a = 0 → play_count ["b"] b = 0) :=
  c6_most_played_resort ["a", "b"] ["b"]
